import Mathlib

set_option maxRecDepth 10000

/-!
Verification of the browshot-retry client (`src/browshot.py`).

The development shallowly embeds the parts of the module the claims are
about:

* `_BrowshotClient.simple` / `_BrowshotClient.simple_file` — one network
  attempt and its classification into a result dict, plus the optional
  file write (`Browshot.simple`, `Browshot.simple_file`);
* `ScreenshotThread.run` — the retry loop driving attempts until the
  result dict carries a non-empty file path, or a status in `[400, 500)`
  is observed (`Browshot.runLoop`);
* `_BrowshotClient.make_url` — signed-URL construction with
  `urllib.quote_plus` percent-encoding and the special handling of the
  multi-valued keys `urls` / `instances` (`Browshot.make_url`).

The network is modelled as an oracle: each attempt's raw transport result
is a `Browshot.NetResult` (a successfully read body, an `HTTPError`
carrying a status code, or any other exception), and the worker consumes
a list of them, one per attempt.  Byte strings are `List Nat`, Python
(byte) strings are `List Char`.
-/

namespace Browshot

/-- Python 2 byte strings (response bodies). -/
abbrev Bytes := List Nat

/-- Python 2 strings (URLs, paths, parameter keys/values), as char lists. -/
abbrev Str := List Char

/-! ### The transport model

`urlopen(uri)` either returns a response whose `read()` yields a body,
raises `HTTPError` with a status code, or raises some other exception
(`URLError` on connection failures and timeouts, `ValueError` on
malformed URLs, ...).  `urllib2`'s `HTTPErrorProcessor` raises
`HTTPError` exactly for status codes outside `[200, 300)`; a `2xx`
response is returned, not raised — `validNet` records that constraint on
the oracle. -/

inductive NetResult where
  | ok (body : Bytes)
  | httpError (code : Nat)
  | otherError
deriving DecidableEq

/-- `urlopen` never raises `HTTPError` for a `2xx` status (it returns the
response instead), so an oracle entry `httpError c` with `200 ≤ c < 300`
cannot arise from the real transport. -/
def validNet : NetResult → Bool
  | .httpError c => decide ¬(200 ≤ c ∧ c < 300)
  | _ => true

/-! ### `_BrowshotClient.simple` — one attempt, classified -/

/-- The dict `{'code': ..., 'png': ...}` returned by `simple`. -/
structure SimpleResult where
  code : Nat
  png : Bytes
deriving DecidableEq

/-- `_BrowshotClient.simple` (src/browshot.py:99-109), given the raw
transport result of its single `urlopen` call:

    try:
        response = urlopen(uri)
        data = response.read()
        if len(data) < 500:
            # Less than 500 bytes not a picture...
            return {'code': 500, 'png': ''}
        return {'code': 200, 'png': data}
    except HTTPError as e:
        return {'code': e.code, 'png': ''}
    except Exception as e:
        return {'code': 400, 'png': ''}
-/
def simple (net : NetResult) : SimpleResult :=
  match net with
  | .ok data => if data.length < 500 then ⟨500, []⟩ else ⟨200, data⟩
  | .httpError c => ⟨c, []⟩
  | .otherError => ⟨400, []⟩

/-! ### `_BrowshotClient.simple_file` — attempt plus optional write -/

/-- The dict `{'code': ..., 'file': ...}` returned by `simple_file`. -/
structure FileResult where
  code : Nat
  file : Str
deriving DecidableEq

/-- `_BrowshotClient.simple_file` (src/browshot.py:125-132).  Returns the
result dict together with the write effect: `some bytes` when the branch
`len(data['png']) > 0` opens the file with mode `wb` (truncate/create)
and writes the payload, `none` when no file is touched. -/
def simple_file (net : NetResult) (file : Str) : FileResult × Option Bytes :=
  let data := simple net
  if data.png.length > 0 then
    (⟨data.code, file⟩, some data.png)
  else
    (⟨data.code, []⟩, none)

/-! ### `ScreenshotThread.run` — the retry loop -/

/-- How a run of the worker loop ended. `exhausted` means the modelled
oracle ran out while the loop would still be retrying (the real loop
would block on another attempt). -/
inductive RunResult where
  | done (file : Str)
  | abandoned (code : Nat)
  | exhausted
deriving DecidableEq

/-- Observable trace of a worker run: how it ended, the file writes it
performed (in order, each being the full contents put at the output
path), and how many attempts it made. -/
structure RunTrace where
  result : RunResult
  writes : List Bytes
  attempts : Nat
deriving DecidableEq

/-- `ScreenshotThread.run` (src/browshot.py:49-63), driven by the oracle
list of per-attempt transport results:

    res = {'code': 0, 'file': ''}
    while not res['file']:
        res = _BrowshotClient(API_KEY).simple_file(self.url, self.shotpath, {...})
        if 500 > res['code'] >= 400:
            log.error(...)
            return
        if not res['file']:
            log.error(... will retry ...)

The initial dict has an empty `file`, so the body runs at least once;
after a fatal `[400, 500)` code the method returns without writing
anything further; otherwise it loops until `res['file']` is non-empty. -/
def runLoop (shotpath : Str) : List NetResult → RunTrace
  | [] => ⟨.exhausted, [], 0⟩
  | net :: rest =>
    let step := simple_file net shotpath
    if step.1.code < 500 ∧ 400 ≤ step.1.code then
      ⟨.abandoned step.1.code, step.2.toList, 1⟩
    else if step.1.file = [] then
      let t := runLoop shotpath rest
      ⟨t.result, step.2.toList ++ t.writes, t.attempts + 1⟩
    else
      ⟨.done step.1.file, step.2.toList, 1⟩

/-- Contents of the output path after a list of writes, starting from an
arbitrary initial state (`none` = no file).  Each write truncates and
replaces the whole file (`open(file, mode='wb')`). -/
def applyWrites (init : Option Bytes) (ws : List Bytes) : Option Bytes :=
  ws.foldl (fun _ w => some w) init

/-- An attempt the worker retries: the result dict carries an empty
`file` (so the loop continues) and the code is not in the fatal
`[400, 500)` band. -/
def isTransientStep (net : NetResult) : Prop :=
  (simple net).png = [] ∧ ¬((simple net).code < 500 ∧ 400 ≤ (simple net).code)

instance (net : NetResult) : Decidable (isTransientStep net) := by
  unfold isTransientStep; infer_instance

/-! ### `urllib.quote_plus`

Python 2's `urllib.quote` keeps the characters in `always_safe`
(ASCII letters, digits, `_`, `.`, `-`) and replaces every other byte by
`%XX` with two uppercase hex digits; `quote_plus` additionally renders a
space as `+`.  Both act byte by byte. -/

def isAlwaysSafe (c : Char) : Bool :=
  (decide (('A' : Char) ≤ c) && decide (c ≤ ('Z' : Char))) ||
  (decide (('a' : Char) ≤ c) && decide (c ≤ ('z' : Char))) ||
  (decide (('0' : Char) ≤ c) && decide (c ≤ ('9' : Char))) ||
  decide (c = '_') || decide (c = '.') || decide (c = '-')

/-- Uppercase hexadecimal digit for a value below 16. -/
def hexDigit (n : Nat) : Char :=
  if n < 10 then Char.ofNat (48 + n) else Char.ofNat (65 + (n - 10))

/-- `'%%%02X' % ord(c)` for a byte value. -/
def hexEscape (m : Nat) : Str :=
  '%' :: [hexDigit (m / 16 % 16), hexDigit (m % 16)]

/-- Encoding of one byte under `quote_plus`. -/
def quoteChar (c : Char) : Str :=
  if isAlwaysSafe c then [c]
  else if c = ' ' then ['+']
  else hexEscape (c.toNat % 256)

/-- `urllib.quote_plus` on a byte string. -/
def quotePlus (s : Str) : Str :=
  s.flatMap quoteChar

/-! ### Parameter values

The dicts handed to `make_url` map string keys to strings, ints or lists
(of urls / instance ids).  `str(value)` renders an int in decimal and a
list as `[...]` with `repr` of the elements; `for x in value` iterates a
list element-wise and a string character-wise. -/

inductive PValue where
  | s (v : Str)
  | n (v : Nat)
  | lst (vs : List PValue)

/-- Python 2 `repr` for the values above (`repr` of a byte string quotes
it; escaping of special characters inside the string is not modelled —
no claim exercises it). -/
def pyRepr : PValue → Str
  | .s v => Char.ofNat 39 :: (v ++ [Char.ofNat 39])
  | .n v => Nat.toDigits 10 v
  | .lst vs => '[' :: (pyReprList vs ++ [']'])
where
  pyReprList : List PValue → Str
  | [] => []
  | [v] => pyRepr v
  | v :: rest => pyRepr v ++ (',' :: ' ' :: pyReprList rest)

/-- Python 2 `str` for the values above. -/
def pyStr : PValue → Str
  | .s v => v
  | .n v => Nat.toDigits 10 v
  | .lst vs => '[' :: (pyRepr.pyReprList vs ++ [']'])

/-- `for x in value`: a list yields its elements, a string its
characters (as one-character strings).  Iterating an int raises
`TypeError` in Python; that error path is outside every call site and is
modelled as yielding nothing. -/
def pyIter : PValue → List PValue
  | .lst vs => vs
  | .s v => v.map (fun c => PValue.s [c])
  | .n _ => []

/-! ### `_BrowshotClient.make_url` -/

/-- The state `_BrowshotClient.__init__` keeps: the API key and the base
URL. -/
structure BrowshotClient where
  key : Str
  base : Str

/-- The default `base` argument of `_BrowshotClient.__init__`. -/
def defaultBase : Str := "https://api.browshot.com/api/v1/".toList

/-- `_BrowshotClient.make_url` (src/browshot.py:303-316), with the
parameter dict in its iteration order:

    url = self.base + action + '?key=' + urllib.quote_plus(self.key)
    for key, value in parameters.items():
        if key == 'urls':
          for uri in value:
            url += '&url=' + urllib.quote_plus(str(uri))
        elif key == 'instances':
          for instance_id in value:
            url += '&instance_id=' + urllib.quote_plus(str(instance_id))
        else:
          url += '&' + urllib.quote_plus(key) + '=' + urllib.quote_plus(str(value))
    return url
-/
def make_url (c : BrowshotClient) (action : Str) (params : List (Str × PValue)) : Str :=
  let url0 := c.base ++ action ++ "?key=".toList ++ quotePlus c.key
  params.foldl (fun url kv =>
    if kv.1 = "urls".toList then
      (pyIter kv.2).foldl (fun u e => u ++ "&url=".toList ++ quotePlus (pyStr e)) url
    else if kv.1 = "instances".toList then
      (pyIter kv.2).foldl
        (fun u e => u ++ "&instance_id=".toList ++ quotePlus (pyStr e)) url
    else
      url ++ ('&' :: quotePlus kv.1) ++ ('=' :: quotePlus (pyStr kv.2))) url0

/-! ### Standard query-string parsing

To state what the produced URLs mean, we parse them the way any URL
consumer does: take the part after the first `?`, split it on `&`, and
split each resulting segment at its first `=`. -/

/-- Everything after the first occurrence of `sep` (empty if absent). -/
def afterFirst (sep : Char) : Str → Str
  | [] => []
  | c :: cs => if c = sep then cs else afterFirst sep cs

/-- Split on every occurrence of `sep`. -/
def splitCh (sep : Char) : Str → List Str
  | [] => [[]]
  | c :: cs =>
    if c = sep then [] :: splitCh sep cs
    else
      match splitCh sep cs with
      | [] => [[c]]
      | h :: t => (c :: h) :: t

/-- Split a segment at its first `=` into a key/value pair. -/
def splitEq : Str → Str × Str
  | [] => ([], [])
  | c :: cs =>
    if c = '=' then ([], cs)
    else (c :: (splitEq cs).1, (splitEq cs).2)

/-- Query key/value pairs (still percent-encoded) of a URL. -/
def parseQuery (url : Str) : List (Str × Str) :=
  (splitCh '&' (afterFirst '?' url)).map splitEq

/-- The encoded key/value pairs one dict entry contributes to the query
string: the multi-valued keys `urls` / `instances` contribute one
`url=` / `instance_id=` pair per element, each element encoded on its
own; any other entry contributes a single pair with key and value each
`quote_plus`-encoded. -/
def pairsOf (kv : Str × PValue) : List (Str × Str) :=
  if kv.1 = "urls".toList then
    (pyIter kv.2).map (fun e => ("url".toList, quotePlus (pyStr e)))
  else if kv.1 = "instances".toList then
    (pyIter kv.2).map (fun e => ("instance_id".toList, quotePlus (pyStr e)))
  else
    [(quotePlus kv.1, quotePlus (pyStr kv.2))]

/-! ### The in-place parameter-dict update of `simple`

`simple` starts with `parameters.update({'url': url})`
(src/browshot.py:96): the caller's dict itself gains (or overwrites) the
key `'url'` before the request is built. -/

/-- `d.update({k: v})` on a dict modelled as an association list in
iteration order: an existing key keeps its position and gets the new
value, a new key is appended. -/
def dictUpdate (d : List (Str × PValue)) (k : Str) (v : PValue) : List (Str × PValue) :=
  match d with
  | [] => [(k, v)]
  | kv :: rest => if kv.1 = k then (k, v) :: rest else kv :: dictUpdate rest k v

/-- Dict lookup on the association-list model. -/
def dictLookup (d : List (Str × PValue)) (k : Str) : Option PValue :=
  match d with
  | [] => none
  | kv :: rest => if kv.1 = k then some kv.2 else dictLookup rest k

/-- The caller-visible state of the `parameters` dict after
`simple(url, parameters)` ran its first line
`parameters.update({'url': url})` — the update is in place, so this is
the dict the caller holds afterwards. -/
def simpleParams (url : Str) (params : List (Str × PValue)) : List (Str × PValue) :=
  dictUpdate params "url".toList (.s url)

/-! ## Helper lemmas about the worker loop -/

/-- Unfolding of one iteration of the worker loop. -/
theorem runLoop_cons (path : Str) (net : NetResult) (rest : List NetResult) :
    runLoop path (net :: rest) =
      if (simple_file net path).1.code < 500 ∧ 400 ≤ (simple_file net path).1.code then
        ⟨.abandoned (simple_file net path).1.code, (simple_file net path).2.toList, 1⟩
      else if (simple_file net path).1.file = [] then
        ⟨(runLoop path rest).result,
         (simple_file net path).2.toList ++ (runLoop path rest).writes,
         (runLoop path rest).attempts + 1⟩
      else
        ⟨.done (simple_file net path).1.file, (simple_file net path).2.toList, 1⟩ := rfl

/-- On a transient attempt `simple_file` writes nothing and reports an
empty file path. -/
theorem simple_file_of_transient (net : NetResult) (path : Str)
    (h : isTransientStep net) :
    simple_file net path = (⟨(simple net).code, []⟩, none) := by
  simp [simple_file, h.1]

/-- A transient attempt just adds one retry in front of the rest of the
run. -/
theorem runLoop_cons_transient (path : Str) (net : NetResult) (rest : List NetResult)
    (h : isTransientStep net) :
    runLoop path (net :: rest) =
      ⟨(runLoop path rest).result,
       (runLoop path rest).writes,
       (runLoop path rest).attempts + 1⟩ := by
  rw [runLoop_cons, simple_file_of_transient net path h]
  rw [if_neg h.2]
  simp

/-- A successful attempt (body at least 500 bytes) ends the loop at once:
the payload is written and the result dict carries the output path. -/
theorem runLoop_cons_success (path : Str) (hpath : path ≠ []) (b : Bytes)
    (hb : 500 ≤ b.length) (rest : List NetResult) :
    runLoop path (NetResult.ok b :: rest) = ⟨.done path, [b], 1⟩ := by
  have hlen : ¬(b.length < 500) := by omega
  have hpos : 0 < b.length := by omega
  rw [runLoop_cons]
  simp [simple_file, simple, hlen, hpos, hpath]

/-- A run whose oracle is a list of transient attempts followed by one
success: it ends `done`, performs exactly one write (the successful
payload) and `pre.length + 1` attempts. -/
theorem runLoop_transient_then_success (path : Str) (hpath : path ≠ [])
    (pre : List NetResult) (hpre : ∀ n ∈ pre, isTransientStep n)
    (b : Bytes) (hb : 500 ≤ b.length) :
    runLoop path (pre ++ [NetResult.ok b]) = ⟨.done path, [b], pre.length + 1⟩ := by
  induction pre with
  | nil => simpa using runLoop_cons_success path hpath b hb []
  | cons n t ih =>
    have hn : isTransientStep n := hpre n (List.mem_cons_self n t)
    have ht : ∀ m ∈ t, isTransientStep m := fun m hm => hpre m (List.mem_cons_of_mem n hm)
    rw [List.cons_append, runLoop_cons_transient path n _ hn, ih ht]
    simp [Nat.add_comm, Nat.add_assoc]

/-! ## The claims about the worker -/

/-- **C1, counterexample.** The claim says a non-`HTTPError` exception
from the network call (connection error, timeout, malformed transport
response) is classified as a transient failure with a synthetic status
code distinct from any real HTTP status, so that the worker retries.  In
fact `simple` maps any such exception to `{'code': 400, 'png': ''}` —
`400` is a real HTTP status, inside the worker's fatal `[400, 500)`
band — so the worker abandons immediately, even when the very next
attempt would have succeeded. -/
theorem transport_error_retried_refuted :
    (simple NetResult.otherError).code = 400 ∧
    ¬ isTransientStep NetResult.otherError ∧
    (runLoop "/tmp/out.png".toList
        [NetResult.otherError, NetResult.ok (List.replicate 500 0)]).result =
      RunResult.abandoned 400 := by decide

/-- **C1, amended.** A network-level failure that does not raise
`HTTPError` yields `{'code': 400, 'png': ''}` — status `400`, a real
HTTP status lying in the permanent `[400, 500)` band — and the worker
abandons after that single attempt, writing nothing, rather than
retrying. -/
theorem transport_error_maps_to_400_and_abandons (path : Str) (rest : List NetResult) :
    simple NetResult.otherError = ⟨400, []⟩ ∧
    runLoop path (NetResult.otherError :: rest) = ⟨.abandoned 400, [], 1⟩ := by
  refine ⟨rfl, ?_⟩
  rw [runLoop_cons]
  simp [simple_file, simple]

/-- **C2.** If the attempts the worker performs are transient failures
followed by a `Success` (a body of at least the 500-byte threshold),
the run ends `done` with the requested output path, the only write ever
performed is the successful attempt's payload, and whatever the output
path held before, afterwards it holds exactly those bytes
(truncate-and-create). -/
theorem success_writes_exact_payload (path : Str) (hpath : path ≠ [])
    (pre : List NetResult) (hpre : ∀ n ∈ pre, isTransientStep n)
    (b : Bytes) (hb : 500 ≤ b.length) :
    (runLoop path (pre ++ [NetResult.ok b])).result = .done path ∧
    (runLoop path (pre ++ [NetResult.ok b])).writes = [b] ∧
    ∀ init, applyWrites init (runLoop path (pre ++ [NetResult.ok b])).writes = some b := by
  rw [runLoop_transient_then_success path hpath pre hpre b hb]
  exact ⟨rfl, rfl, fun init => rfl⟩

/-- **C2, witness.** One transient `503` then a 500-byte success. -/
theorem success_writes_exact_payload_witness :
    ("/tmp/out.png".toList ≠ ([] : Browshot.Str)) ∧
    isTransientStep (NetResult.httpError 503) ∧
    500 ≤ (List.replicate 500 7).length ∧
    applyWrites none
      (runLoop "/tmp/out.png".toList
        ([NetResult.httpError 503] ++ [NetResult.ok (List.replicate 500 7)])).writes =
      some (List.replicate 500 7) :=
  ⟨by decide, by decide, by simp,
    (success_writes_exact_payload "/tmp/out.png".toList (by decide)
      [NetResult.httpError 503] (by decide) (List.replicate 500 7) (by simp)).2.2 none⟩

/-- **C3.** If the first attempt comes back with an HTTP status in
`[400, 500)`, the worker makes exactly that one attempt, ends abandoned
with that status, and never creates or modifies a file: the write trace
is empty and the output path's contents are unchanged. -/
theorem first_attempt_4xx_abandons (path : Str) (c : Nat) (rest : List NetResult)
    (h400 : 400 ≤ c) (h500 : c < 500) :
    runLoop path (NetResult.httpError c :: rest) = ⟨.abandoned c, [], 1⟩ ∧
    ∀ init, applyWrites init (runLoop path (NetResult.httpError c :: rest)).writes = init := by
  have hmain : runLoop path (NetResult.httpError c :: rest) = ⟨.abandoned c, [], 1⟩ := by
    rw [runLoop_cons]
    simp [simple_file, simple, h400, h500]
  exact ⟨hmain, fun init => by rw [hmain]; rfl⟩

/-- **C3, witness.** A `404` on the first attempt, with a success
available right after that is never consumed. -/
theorem first_attempt_4xx_abandons_witness :
    400 ≤ 404 ∧ 404 < 500 ∧
    runLoop "/tmp/out.png".toList
        [NetResult.httpError 404, NetResult.ok (List.replicate 600 1)] =
      ⟨.abandoned 404, [], 1⟩ ∧
    applyWrites none
      (runLoop "/tmp/out.png".toList
        [NetResult.httpError 404, NetResult.ok (List.replicate 600 1)]).writes = none :=
  ⟨by decide, by decide,
    (first_attempt_4xx_abandons "/tmp/out.png".toList 404
      [NetResult.ok (List.replicate 600 1)] (by decide) (by decide)).1,
    (first_attempt_4xx_abandons "/tmp/out.png".toList 404
      [NetResult.ok (List.replicate 600 1)] (by decide) (by decide)).2 none⟩

/-- Shape of `simple_file`'s reported file path: either empty (nothing
written) or exactly the requested path. -/
theorem simple_file_path_cases (net : NetResult) (path : Str) :
    (simple_file net path).1.file = [] ∨ (simple_file net path).1.file = path := by
  by_cases hpng : (simple net).png.length > 0
  · right; simp [simple_file, hpng]
  · left; simp [simple_file, hpng]

/-- **C4.** `N` transient failures followed by a success make the worker
perform exactly `N + 1` attempts, terminate `done` (no premature
termination), and leave the output file equal to the last attempt's
payload. -/
theorem n_transient_then_success_attempt_count (path : Str) (hpath : path ≠ [])
    (pre : List NetResult) (hpre : ∀ n ∈ pre, isTransientStep n)
    (b : Bytes) (hb : 500 ≤ b.length) :
    (runLoop path (pre ++ [NetResult.ok b])).attempts = pre.length + 1 ∧
    (runLoop path (pre ++ [NetResult.ok b])).result = .done path ∧
    ∀ init, applyWrites init (runLoop path (pre ++ [NetResult.ok b])).writes = some b := by
  rw [runLoop_transient_then_success path hpath pre hpre b hb]
  exact ⟨rfl, rfl, fun init => rfl⟩

/-- **C4, witness.** Three transient failures (`503`, a short `200`
body, a `302`) then a success: four attempts. -/
theorem n_transient_then_success_attempt_count_witness :
    ("/tmp/out.png".toList ≠ ([] : Browshot.Str)) ∧
    isTransientStep (NetResult.httpError 503) ∧
    isTransientStep (NetResult.ok [1, 2, 3]) ∧
    isTransientStep (NetResult.httpError 302) ∧
    (runLoop "/tmp/out.png".toList
      ([NetResult.httpError 503, NetResult.ok [1, 2, 3], NetResult.httpError 302] ++
        [NetResult.ok (List.replicate 501 9)])).attempts = 3 + 1 :=
  ⟨by decide, by decide, by decide, by decide,
    (n_transient_then_success_attempt_count "/tmp/out.png".toList (by decide)
      [NetResult.httpError 503, NetResult.ok [1, 2, 3], NetResult.httpError 302]
      (by decide) (List.replicate 501 9) (by simp)).1⟩

/-- **C5.** At the size threshold of `simple`: a `200` response whose
body is exactly 500 bytes is a success carrying that body, while a
499-byte body yields `{'code': 500, 'png': ''}`, which the worker
classifies as transient (empty payload, code outside `[400, 500)`). -/
theorem threshold_boundary (b500 b499 : Bytes)
    (h1 : b500.length = 500) (h2 : b499.length = 499) :
    simple (NetResult.ok b500) = ⟨200, b500⟩ ∧
    simple (NetResult.ok b499) = ⟨500, []⟩ ∧
    isTransientStep (NetResult.ok b499) := by
  have k1 : ¬(b500.length < 500) := by omega
  have k2 : b499.length < 500 := by omega
  refine ⟨by simp [simple, k1], by simp [simple, k2], ?_⟩
  constructor
  · simp [simple, k2]
  · simp [simple, k2]

/-- **C5, witness.** Concrete 500- and 499-byte bodies. -/
theorem threshold_boundary_witness :
    (List.replicate 500 4).length = 500 ∧
    (List.replicate 499 4).length = 499 ∧
    simple (NetResult.ok (List.replicate 500 4)) = ⟨200, List.replicate 500 4⟩ ∧
    isTransientStep (NetResult.ok (List.replicate 499 4)) :=
  ⟨by simp, by simp,
    (threshold_boundary (List.replicate 500 4) (List.replicate 499 4)
      (by simp) (by simp)).1,
    (threshold_boundary (List.replicate 500 4) (List.replicate 499 4)
      (by simp) (by simp)).2.2⟩

/-- **C8.** Every exception of the network call is already turned into a
result dict by `simple` (it is total on the transport outcomes), so the
worker's run can only end in one of three ways: still retrying
(`exhausted` — the modelled oracle ran out), `done` carrying exactly the
requested output path, or `abandoned` carrying a status code in
`[400, 500)`.  No raw transport exception ever reaches the caller. -/
theorem worker_terminal_outcomes (path : Str) (nets : List NetResult) :
    (runLoop path nets).result = .exhausted ∨
    (runLoop path nets).result = .done path ∨
    ∃ c, 400 ≤ c ∧ c < 500 ∧ (runLoop path nets).result = .abandoned c := by
  induction nets with
  | nil => exact Or.inl rfl
  | cons net rest ih =>
    rw [runLoop_cons]
    by_cases hfatal :
        (simple_file net path).1.code < 500 ∧ 400 ≤ (simple_file net path).1.code
    · rw [if_pos hfatal]
      exact Or.inr (Or.inr ⟨(simple_file net path).1.code, hfatal.2, hfatal.1, rfl⟩)
    · rw [if_neg hfatal]
      by_cases hfile : (simple_file net path).1.file = []
      · rw [if_pos hfile]
        exact ih
      · rw [if_neg hfile]
        rcases simple_file_path_cases net path with h | h
        · exact absurd h hfile
        · exact Or.inr (Or.inl (by simp [h]))

/-! ## The parameter-dict mutation of `simple` (C9) -/

/-- `dictUpdate` sets the updated key. -/
theorem dictLookup_dictUpdate_self (d : List (Str × PValue)) (k : Str) (v : PValue) :
    dictLookup (dictUpdate d k v) k = some v := by
  induction d with
  | nil => simp [dictUpdate, dictLookup]
  | cons kv rest ih =>
    by_cases h : kv.1 = k
    · simp [dictUpdate, dictLookup, h]
    · simp [dictUpdate, dictLookup, h, ih]

/-- `dictUpdate` leaves every other key alone. -/
theorem dictLookup_dictUpdate_ne (d : List (Str × PValue)) (k : Str) (v : PValue)
    (k' : Str) (hk : k' ≠ k) :
    dictLookup (dictUpdate d k v) k' = dictLookup d k' := by
  have hkk : ¬(k = k') := fun h => hk h.symm
  induction d with
  | nil => simp [dictUpdate, dictLookup, hkk]
  | cons kv rest ih =>
    by_cases h : kv.1 = k
    · have h1 : ¬(kv.1 = k') := by rw [h]; exact hkk
      simp [dictUpdate, dictLookup, h, hkk, h1]
    · by_cases h' : kv.1 = k'
      · simp [dictUpdate, dictLookup, h, h', hk]
      · simp [dictUpdate, dictLookup, h, h', ih]

/-- **C9.** `simple(url, parameters)` starts with
`parameters.update({'url': url})`, mutating the caller's dict in place:
afterwards the dict maps `'url'` to the given url, and keeps every entry
under any other key.  A caller reusing the dict across calls therefore
sees the `'url'` key (and any other merged key) leak into later calls. -/
theorem simple_mutates_caller_params (url : Str) (params : List (Str × PValue)) :
    dictLookup (simpleParams url params) "url".toList = some (PValue.s url) ∧
    ∀ k, k ≠ "url".toList →
      dictLookup (simpleParams url params) k = dictLookup params k := by
  exact ⟨dictLookup_dictUpdate_self params "url".toList (PValue.s url),
    fun k hk => dictLookup_dictUpdate_ne params "url".toList (PValue.s url) k hk⟩

/-- **C9, witness.** A dict `{'cache': 0}` passed to
`simple('http://example.com', ...)` afterwards holds both `'url'` and
its prior `'cache'` entry. -/
theorem simple_mutates_caller_params_witness :
    dictLookup
        (simpleParams "http://example.com".toList [("cache".toList, PValue.n 0)])
        "url".toList = some (PValue.s "http://example.com".toList) ∧
    dictLookup
        (simpleParams "http://example.com".toList [("cache".toList, PValue.n 0)])
        "cache".toList =
      dictLookup [("cache".toList, PValue.n 0)] "cache".toList :=
  ⟨(simple_mutates_caller_params "http://example.com".toList
      [("cache".toList, PValue.n 0)]).1,
    (simple_mutates_caller_params "http://example.com".toList
      [("cache".toList, PValue.n 0)]).2 "cache".toList (by decide)⟩

/-! ## Invariants tying `simple` and `simple_file` together (C10) -/

/-- **C10.** For any transport outcome the real `urlopen` can produce
(`validNet` — `HTTPError` is only raised for statuses outside
`[200, 300)`), the dict returned by `simple` has a non-empty `png`
exactly when its code is `200`, and a non-empty `png` is at least 500
bytes long.  Consequently `simple_file` writes the file exactly when the
code is `200`, reporting the given path on success and the empty string
otherwise, passing the code through unchanged. -/
theorem simple_result_invariants (net : NetResult) (f : Str)
    (h : validNet net = true) :
    ((simple net).png ≠ [] ↔ (simple net).code = 200) ∧
    ((simple net).png ≠ [] → 500 ≤ (simple net).png.length) ∧
    (simple_file net f).1.code = (simple net).code ∧
    ((simple net).code = 200 →
      (simple_file net f).1.file = f ∧ (simple_file net f).2 = some (simple net).png) ∧
    ((simple net).code ≠ 200 →
      (simple_file net f).1.file = [] ∧ (simple_file net f).2 = none) := by
  cases net with
  | ok data =>
    by_cases hlen : data.length < 500
    · simp [simple, simple_file, hlen]
    · have hne : data ≠ [] := by
        intro h0
        rw [h0] at hlen
        simp at hlen
      have hpos : 0 < data.length := by omega
      simp [simple, simple_file, hlen, hne, hpos]
      omega
  | httpError c =>
    have hc : c < 200 ∨ 300 ≤ c := by
      simpa [validNet] using h
    have hc200 : c ≠ 200 := by omega
    simp [simple, simple_file, hc200]
  | otherError =>
    simp [simple, simple_file]

/-- **C10, witness.** A 600-byte `200` response and a `503` error. -/
theorem simple_result_invariants_witness :
    validNet (NetResult.ok (List.replicate 600 3)) = true ∧
    ((simple (NetResult.ok (List.replicate 600 3))).png ≠ [] ↔
      (simple (NetResult.ok (List.replicate 600 3))).code = 200) ∧
    validNet (NetResult.httpError 503) = true ∧
    ((simple (NetResult.httpError 503)).code ≠ 200 →
      (simple_file (NetResult.httpError 503) "/tmp/out.png".toList).1.file = [] ∧
      (simple_file (NetResult.httpError 503) "/tmp/out.png".toList).2 = none) :=
  ⟨by decide, (simple_result_invariants (NetResult.ok (List.replicate 600 3))
      "/tmp/out.png".toList (by decide)).1,
    by decide, (simple_result_invariants (NetResult.httpError 503)
      "/tmp/out.png".toList (by decide)).2.2.2.2⟩

/-! ## Helper lemmas about `make_url` and query parsing (C6, C7) -/

/-- The query segment a single key/value pair renders to. -/
def toSeg (pr : Str × Str) : Str := pr.1 ++ '=' :: pr.2

/-- The raw characters one dict entry appends to the URL. -/
def segStr (kv : Str × PValue) : Str :=
  (pairsOf kv).flatMap (fun pr => '&' :: toSeg pr)

/-- `quote_plus` output never contains the query metacharacters `&` or
`=` at the single-character level. -/
theorem notMem_hexEscape (m : Nat) (ch : Char) (hch : ch = '&' ∨ ch = '=') :
    ch ∉ hexEscape m := by
  have h1 : ∀ k, k < 16 → ¬(hexDigit k = '&' ∨ hexDigit k = '=') := by decide
  have k1 : m / 16 % 16 < 16 := Nat.mod_lt _ (by norm_num)
  have k2 : m % 16 < 16 := Nat.mod_lt _ (by norm_num)
  intro hmem
  simp only [hexEscape, List.mem_cons, List.mem_singleton] at hmem
  rcases hmem with h | h | h
  · subst h
    rcases hch with h | h <;> exact absurd h (by decide)
  · apply h1 _ k1
    rw [← h]
    exact hch
  · simp only [List.not_mem_nil, or_false] at h
    apply h1 _ k2
    rw [← h]
    exact hch

/-- No `&` or `=` in the encoding of any single byte. -/
theorem notMem_quoteChar (c ch : Char) (hch : ch = '&' ∨ ch = '=') :
    ch ∉ quoteChar c := by
  have hq : isAlwaysSafe ch = false := by
    rcases hch with rfl | rfl <;> decide
  unfold quoteChar
  by_cases hsafe : isAlwaysSafe c = true
  · rw [if_pos hsafe]
    intro hmem
    rw [List.mem_singleton] at hmem
    subst hmem
    rw [hq] at hsafe
    exact Bool.false_ne_true hsafe
  · rw [if_neg hsafe]
    by_cases hsp : c = ' '
    · rw [if_pos hsp]
      intro hmem
      rw [List.mem_singleton] at hmem
      rcases hch with rfl | rfl <;> exact absurd hmem (by decide)
    · rw [if_neg hsp]
      exact notMem_hexEscape _ ch hch

/-- No `&` or `=` anywhere in a `quote_plus`-encoded string. -/
theorem notMem_quotePlus (s : Str) (ch : Char) (hch : ch = '&' ∨ ch = '=') :
    ch ∉ quotePlus s := by
  intro hmem
  rw [quotePlus, List.mem_flatMap] at hmem
  obtain ⟨c, _, hc⟩ := hmem
  exact notMem_quoteChar c ch hch hc

/-- A left fold that appends a rendering of each element equals the
initial string followed by the concatenation of the renderings. -/
theorem foldl_append_flatMap {α : Type} (f : Str → α → Str) (g : α → Str)
    (hf : ∀ u x, f u x = u ++ g x) (l : List α) (u : Str) :
    l.foldl f u = u ++ l.flatMap g := by
  induction l generalizing u with
  | nil => simp
  | cons x t ih =>
    rw [List.foldl_cons, hf, ih, List.flatMap_cons, List.append_assoc]

/-- One iteration of the `make_url` parameter loop appends exactly the
segments of that entry. -/
theorem make_url_step (url : Str) (kv : Str × PValue) :
    (if kv.1 = "urls".toList then
      (pyIter kv.2).foldl (fun u e => u ++ "&url=".toList ++ quotePlus (pyStr e)) url
    else if kv.1 = "instances".toList then
      (pyIter kv.2).foldl
        (fun u e => u ++ "&instance_id=".toList ++ quotePlus (pyStr e)) url
    else
      url ++ ('&' :: quotePlus kv.1) ++ ('=' :: quotePlus (pyStr kv.2))) =
    url ++ segStr kv := by
  by_cases h1 : kv.1 = "urls".toList
  · rw [if_pos h1]
    rw [foldl_append_flatMap _ (fun e => "&url=".toList ++ quotePlus (pyStr e))
      (fun u e => by rw [List.append_assoc])]
    unfold segStr pairsOf
    rw [if_pos h1, List.flatMap_map]
    rfl
  · rw [if_neg h1]
    by_cases h2 : kv.1 = "instances".toList
    · rw [if_pos h2]
      rw [foldl_append_flatMap _ (fun e => "&instance_id=".toList ++ quotePlus (pyStr e))
        (fun u e => by rw [List.append_assoc])]
      unfold segStr pairsOf
      rw [if_neg h1, if_pos h2, List.flatMap_map]
      rfl
    · rw [if_neg h2]
      unfold segStr pairsOf
      rw [if_neg h1, if_neg h2]
      simp [toSeg, List.append_assoc]

/-- `make_url` in closed form: the part before the first `?`, the `?`,
the `key` pair, and one `&`-prefixed segment per rendered pair. -/
theorem make_url_eq (c : BrowshotClient) (action : Str)
    (params : List (Str × PValue)) :
    make_url c action params =
      (c.base ++ action) ++ '?' ::
        (("key".toList ++ '=' :: quotePlus c.key) ++
          ((params.flatMap pairsOf).map toSeg).flatMap (fun s => '&' :: s)) := by
  unfold make_url
  rw [foldl_append_flatMap _ segStr (fun u kv => make_url_step u kv) params]
  have hseg : params.flatMap segStr =
      ((params.flatMap pairsOf).map toSeg).flatMap (fun s => '&' :: s) := by
    rw [List.flatMap_map, List.flatMap_assoc]
    rfl
  rw [hseg]
  simp only [List.append_assoc]
  rfl

/-- `afterFirst` skips a prefix free of the separator. -/
theorem afterFirst_append (sep : Char) (l1 l2 : Str) (h : sep ∉ l1) :
    afterFirst sep (l1 ++ l2) = afterFirst sep l2 := by
  induction l1 with
  | nil => rfl
  | cons c t ih =>
    rw [List.mem_cons] at h
    push_neg at h
    have hc : ¬(c = sep) := fun hh => h.1 hh.symm
    rw [List.cons_append]
    simp only [afterFirst]
    rw [if_neg hc]
    exact ih h.2

/-- `afterFirst` at the separator itself. -/
theorem afterFirst_cons_self (sep : Char) (l : Str) :
    afterFirst sep (sep :: l) = l := by
  simp [afterFirst]

/-- Splitting a separator-free string is the identity. -/
theorem splitCh_of_notMem (sep : Char) (s : Str) (h : sep ∉ s) :
    splitCh sep s = [s] := by
  induction s with
  | nil => rfl
  | cons c t ih =>
    rw [List.mem_cons] at h
    push_neg at h
    have hc : ¬(c = sep) := fun hh => h.1 hh.symm
    simp only [splitCh]
    rw [if_neg hc, ih h.2]

/-- Splitting peels off a separator-free prefix before a separator. -/
theorem splitCh_append_cons (sep : Char) (s rest : Str) (h : sep ∉ s) :
    splitCh sep (s ++ sep :: rest) = s :: splitCh sep rest := by
  induction s with
  | nil => simp [splitCh]
  | cons c t ih =>
    rw [List.mem_cons] at h
    push_neg at h
    have hc : ¬(c = sep) := fun hh => h.1 hh.symm
    rw [List.cons_append]
    simp only [splitCh]
    rw [if_neg hc, ih h.2]

/-- Splitting a separator-free head followed by `&`-prefixed
separator-free segments recovers exactly head and segments. -/
theorem splitCh_prefix (sep : Char) (segs : List Str) :
    ∀ p0, sep ∉ p0 → (∀ s ∈ segs, sep ∉ s) →
      splitCh sep (p0 ++ segs.flatMap (fun s => sep :: s)) = p0 :: segs := by
  induction segs with
  | nil =>
    intro p0 hp _
    simp [splitCh_of_notMem sep p0 hp]
  | cons s t ih =>
    intro p0 hp hs
    rw [List.flatMap_cons]
    have e : (sep :: s) ++ t.flatMap (fun x => sep :: x) =
        sep :: (s ++ t.flatMap (fun x => sep :: x)) := rfl
    rw [e, splitCh_append_cons sep p0 _ hp,
      ih s (hs s (List.mem_cons_self s t)) (fun m hm => hs m (List.mem_cons_of_mem s hm))]

/-- Splitting a segment whose key part is `=`-free recovers the pair. -/
theorem splitEq_append (k v : Str) (h : '=' ∉ k) :
    splitEq (k ++ '=' :: v) = (k, v) := by
  induction k with
  | nil => simp [splitEq]
  | cons c t ih =>
    rw [List.mem_cons] at h
    push_neg at h
    have hc : ¬(c = '=') := fun hh => h.1 hh.symm
    rw [List.cons_append]
    simp only [splitEq]
    rw [if_neg hc, ih h.2]

/-- The rendered pairs contain no `=` in their keys and no `&` at all. -/
theorem pairsOf_no_special (kv : Str × PValue) :
    ∀ pr ∈ pairsOf kv, ('=' ∉ pr.1) ∧ ('&' ∉ pr.1) ∧ ('&' ∉ pr.2) := by
  intro pr hpr
  unfold pairsOf at hpr
  by_cases h1 : kv.1 = "urls".toList
  · rw [if_pos h1, List.mem_map] at hpr
    obtain ⟨e, _, rfl⟩ := hpr
    refine ⟨?_, ?_, notMem_quotePlus _ _ (Or.inl rfl)⟩
    · show ('=' : Char) ∉ "url".toList
      decide
    · show ('&' : Char) ∉ "url".toList
      decide
  · rw [if_neg h1] at hpr
    by_cases h2 : kv.1 = "instances".toList
    · rw [if_pos h2, List.mem_map] at hpr
      obtain ⟨e, _, rfl⟩ := hpr
      refine ⟨?_, ?_, notMem_quotePlus _ _ (Or.inl rfl)⟩
      · show ('=' : Char) ∉ "instance_id".toList
        decide
      · show ('&' : Char) ∉ "instance_id".toList
        decide
    · rw [if_neg h2, List.mem_singleton] at hpr
      subst hpr
      exact ⟨notMem_quotePlus _ _ (Or.inr rfl), notMem_quotePlus _ _ (Or.inl rfl),
        notMem_quotePlus _ _ (Or.inl rfl)⟩

/-- Parsing a `make_url` result recovers the `key` pair followed by the
rendered pairs of each dict entry, in dict iteration order. -/
theorem parse_make_url (c : BrowshotClient) (action : Str)
    (params : List (Str × PValue)) (hq : '?' ∉ c.base ++ action) :
    parseQuery (make_url c action params) =
      ("key".toList, quotePlus c.key) :: params.flatMap pairsOf := by
  have hp0 : '&' ∉ "key".toList ++ '=' :: quotePlus c.key := by
    intro hmem
    rw [List.mem_append, List.mem_cons] at hmem
    rcases hmem with h | h | h
    · exact absurd h (by decide)
    · exact absurd h (by decide)
    · exact notMem_quotePlus _ _ (Or.inl rfl) h
  have hsegs : ∀ s ∈ (params.flatMap pairsOf).map toSeg, '&' ∉ s := by
    intro s hsmem
    rw [List.mem_map] at hsmem
    obtain ⟨pr, hpr, rfl⟩ := hsmem
    rw [List.mem_flatMap] at hpr
    obtain ⟨kv, _, hkv⟩ := hpr
    have hf := pairsOf_no_special kv pr hkv
    intro hmem
    unfold toSeg at hmem
    rw [List.mem_append, List.mem_cons] at hmem
    rcases hmem with h | h | h
    · exact hf.2.1 h
    · exact absurd h (by decide)
    · exact hf.2.2 h
  rw [make_url_eq]
  unfold parseQuery
  rw [afterFirst_append '?' _ _ hq, afterFirst_cons_self,
    splitCh_prefix '&' ((params.flatMap pairsOf).map toSeg) _ hp0 hsegs,
    List.map_cons, splitEq_append "key".toList (quotePlus c.key) (by decide),
    List.map_map]
  have hid : ∀ pr ∈ params.flatMap pairsOf, (splitEq ∘ toSeg) pr = id pr := by
    intro pr hpr
    rw [List.mem_flatMap] at hpr
    obtain ⟨kv, _, hkv⟩ := hpr
    have hf := pairsOf_no_special kv pr hkv
    show splitEq (toSeg pr) = pr
    unfold toSeg
    rw [splitEq_append pr.1 pr.2 hf.1]
  rw [List.map_congr_left hid, List.map_id]

/-! ## The claims about `make_url` -/

/-- **C6.** `make_url` is insensitive to parameter insertion order: for
the same client and action, two parameter dicts holding the same
key/value pairs in different iteration orders (none of the keys being
the multi-valued `urls` / `instances`) produce URLs whose parsed query
pair sets coincide.  (`?` must not occur before the query part, which
holds for the real base and actions.) -/
theorem make_url_order_insensitive (c : BrowshotClient) (action : Str)
    (p1 p2 : List (Str × PValue)) (hq : '?' ∉ c.base ++ action)
    (hperm : List.Perm p1 p2)
    (_hkeys : ∀ kv ∈ p1, kv.1 ≠ "urls".toList ∧ kv.1 ≠ "instances".toList) :
    ∀ pr, pr ∈ parseQuery (make_url c action p1) ↔
      pr ∈ parseQuery (make_url c action p2) := by
  intro pr
  rw [parse_make_url c action p1 hq, parse_make_url c action p2 hq]
  exact List.Perm.mem_iff
    (List.Perm.cons ("key".toList, quotePlus c.key) (hperm.flatMap_right pairsOf))

/-- **C7.** The rendering of the query pairs: the whole query parses to
the `key` credential pair followed by, per dict entry, the pairs of
`pairsOf` — where a collection under `urls` (resp. `instances`) yields
one `url=` (resp. `instance_id=`) pair per element with each element
percent-encoded individually, never a single composite value, and every
other entry yields a single pair with key and value percent-encoded. -/
theorem make_url_multi_valued_rendering (c : BrowshotClient) (action : Str)
    (params : List (Str × PValue)) (hq : '?' ∉ c.base ++ action) :
    parseQuery (make_url c action params) =
      ("key".toList, quotePlus c.key) :: params.flatMap pairsOf ∧
    (∀ vs, pairsOf ("urls".toList, PValue.lst vs) =
      vs.map (fun e => ("url".toList, quotePlus (pyStr e)))) ∧
    (∀ vs, pairsOf ("instances".toList, PValue.lst vs) =
      vs.map (fun e => ("instance_id".toList, quotePlus (pyStr e)))) ∧
    (∀ k v, k ≠ "urls".toList → k ≠ "instances".toList →
      pairsOf (k, v) = [(quotePlus k, quotePlus (pyStr v))]) := by
  refine ⟨parse_make_url c action params hq, fun vs => rfl, fun vs => rfl, ?_⟩
  intro k v h1 h2
  change (ite (k = "urls".toList) _ (ite (k = "instances".toList) _ _)) = _
  rw [if_neg h1, if_neg h2]

/-! ### Concrete inputs for the `make_url` witnesses -/

def exClient : BrowshotClient := ⟨"my key".toList, defaultBase⟩

def exAction : Str := "screenshot/multiple".toList

def exParams : List (Str × PValue) :=
  [("urls".toList, PValue.lst [PValue.s "http://a b".toList, PValue.s "http://c".toList]),
   ("cache".toList, PValue.n 0)]

def exP1 : List (Str × PValue) :=
  [("cache".toList, PValue.n 0), ("delay".toList, PValue.n 1)]

def exP2 : List (Str × PValue) :=
  [("delay".toList, PValue.n 1), ("cache".toList, PValue.n 0)]

/-- **C6, witness.** Swapping `cache` and `delay` leaves the parsed
query pairs the same (checked for the `cache` pair). -/
theorem make_url_order_insensitive_witness :
    ('?' ∉ exClient.base ++ exAction) ∧
    ("cache".toList ≠ "urls".toList ∧ "cache".toList ≠ "instances".toList) ∧
    ("delay".toList ≠ "urls".toList ∧ "delay".toList ≠ "instances".toList) ∧
    ((quotePlus "cache".toList, quotePlus (pyStr (PValue.n 0))) ∈
        parseQuery (make_url exClient exAction exP1) ↔
      (quotePlus "cache".toList, quotePlus (pyStr (PValue.n 0))) ∈
        parseQuery (make_url exClient exAction exP2)) :=
  ⟨by decide, ⟨by decide, by decide⟩, ⟨by decide, by decide⟩,
    make_url_order_insensitive exClient exAction exP1 exP2 (by decide)
      (List.Perm.swap ("delay".toList, PValue.n 1) ("cache".toList, PValue.n 0) [])
      (by decide)
      (quotePlus "cache".toList, quotePlus (pyStr (PValue.n 0)))⟩

/-- **C7, witness.** A two-element `urls` collection (one element with a
space) plus a `cache` entry. -/
theorem make_url_multi_valued_rendering_witness :
    ('?' ∉ exClient.base ++ exAction) ∧
    parseQuery (make_url exClient exAction exParams) =
      ("key".toList, quotePlus exClient.key) :: exParams.flatMap pairsOf :=
  ⟨by decide,
    (make_url_multi_valued_rendering exClient exAction exParams (by decide)).1⟩

end Browshot
